import Mathlib

/-!
Shallow embedding of the reactive data-model runtime (lisfan/data-model).

The JavaScript values manipulated by the library are modelled as trees in
which every container node (plain object or array) carries a numeric
identity tag standing for its heap address: two containers are the same
JavaScript object exactly when their tags coincide.  Allocation of new
containers (object literals, deep clones, rebuilt accessor views) threads
an allocation counter, so freshly allocated containers receive tags that
no pre-existing value carries.

Sources embedded here (file and line references are to the repository):
- value utilities cloneDeep / merge / getValue: src/unnamed/part_003 lines 158-228;
- model construction init / defineDataProperty: src/unnamed/part_003 lines 72-103 and 236-251;
- nested accessor views recursiveDefineObjectProperty: src/unnamed/part_003 lines 115-146;
- DataModel.setValue: src/unnamed/part_003 lines 477-497;
- DataModel.watch: src/unnamed/part_003 lines 624-649;
- DataModel get dollar-data: src/unnamed/part_003 lines 452-461;
- Watcher.emit: src/src/watcher.js lines 272-292 (the current revision in that file);
- Computer get dollar-value: src/unnamed/part_005 lines 284-290 (the current revision).
-/

mutual

/-- JavaScript values.  Containers (plain objects and arrays) carry a
numeric identity tag modelling their heap address; reference equality of
containers is equality of tags. -/
inductive JSVal : Type where
  | undefined : JSVal
  | nul : JSVal
  | bool : Bool → JSVal
  | num : Int → JSVal
  | str : String → JSVal
  | obj : Nat → JSFields → JSVal
  | arr : Nat → JSElems → JSVal

inductive JSFields : Type where
  | fnil : JSFields
  | fcons : String → JSVal → JSFields → JSFields

inductive JSElems : Type where
  | enil : JSElems
  | econs : JSVal → JSElems → JSElems

end

deriving instance DecidableEq for JSVal, JSFields, JSElems

namespace JSFields

/-- Build a field list from a Lean list (literal helper only). -/
def ofList : List (String × JSVal) → JSFields
  | [] => .fnil
  | (k, v) :: rest => .fcons k v (ofList rest)

/-- The key list of an object, in insertion order (Object.keys). -/
def keys : JSFields → List String
  | .fnil => []
  | .fcons k _ rest => k :: keys rest

end JSFields

/-- JavaScript property read o[k]: the value stored at the first matching
key, undefined when the key is absent. -/
def jsGet : JSFields → String → JSVal
  | .fnil, _ => .undefined
  | .fcons k v rest, key => if k = key then v else jsGet rest key

/-- JavaScript property read v[k] on an arbitrary value: field lookup on
an object, undefined otherwise (only used on objects here). -/
def propGet (v : JSVal) (k : String) : JSVal :=
  match v with
  | .obj _ fs => jsGet fs k
  | _ => .undefined

/-- JavaScript `key in o` test: whether the key is present. -/
def hasKey : JSFields → String → Bool
  | .fnil, _ => false
  | .fcons k _ rest, key => (k = key) || hasKey rest key

/-- JavaScript property write o[k] = v: overwrite the first matching key
in place, or append the key when absent. -/
def setKey : JSFields → String → JSVal → JSFields
  | .fnil, key, v => .fcons key v .fnil
  | .fcons k w rest, key, v =>
    if k = key then .fcons k v rest else .fcons k w (setKey rest key v)

/-- Overwrite the first matching key; do nothing when the key is absent
(models `o[key] && o[key].update(v)`, which skips missing slots). -/
def updateExisting : JSFields → String → JSVal → JSFields
  | .fnil, _, _ => .fnil
  | .fcons k w rest, key, v =>
    if k = key then .fcons k v rest else .fcons k w (updateExisting rest key v)

/-- Well-formedness of a JavaScript object: its keys are distinct (always
true of real JavaScript objects). -/
def keysNodup (fs : JSFields) : Prop := fs.keys.Nodup

/-- validation.isPlainObject. -/
def isPlainObject : JSVal → Bool
  | .obj _ _ => true
  | _ => false

/-- validation.isArray. -/
def isArray : JSVal → Bool
  | .arr _ _ => true
  | _ => false

/-- validation.isUndefined. -/
def isUndefined : JSVal → Bool
  | .undefined => true
  | _ => false

/-- JavaScript truthiness, as used by `a || b` in the merge utility. -/
def truthy : JSVal → Bool
  | .undefined => false
  | .nul => false
  | .bool b => b
  | .num n => !(n == 0)
  | .str s => !(s == "")
  | .obj _ _ => true
  | .arr _ _ => true

/-- JavaScript strict equality (===): value equality on primitives,
identity-tag equality on containers. -/
def refEq : JSVal → JSVal → Bool
  | .undefined, .undefined => true
  | .nul, .nul => true
  | .bool a, .bool b => a == b
  | .num a, .num b => a == b
  | .str a, .str b => a == b
  | .obj i _, .obj j _ => i == j
  | .arr i _, .arr j _ => i == j
  | _, _ => false

mutual

/-- Structural (deep) value equality, ignoring container identity tags:
the sense in which two separately allocated values are "equal". -/
def valEq : JSVal → JSVal → Bool
  | .undefined, .undefined => true
  | .nul, .nul => true
  | .bool a, .bool b => a == b
  | .num a, .num b => a == b
  | .str a, .str b => a == b
  | .obj _ fs, .obj _ gs => valEqFields fs gs
  | .arr _ es, .arr _ ds => valEqElems es ds
  | _, _ => false

def valEqFields : JSFields → JSFields → Bool
  | .fnil, .fnil => true
  | .fcons k v rest, .fcons k2 v2 rest2 =>
    (k = k2) && valEq v v2 && valEqFields rest rest2
  | _, _ => false

def valEqElems : JSElems → JSElems → Bool
  | .enil, .enil => true
  | .econs v rest, .econs v2 rest2 => valEq v v2 && valEqElems rest rest2
  | _, _ => false

end

mutual

/-- The identity tags of every container node inside a value: the set of
heap objects reachable from it.  Two values alias a common container
exactly when these lists intersect. -/
def containerIds : JSVal → List Nat
  | .obj i fs => i :: idsFields fs
  | .arr i es => i :: idsElems es
  | _ => []

def idsFields : JSFields → List Nat
  | .fnil => []
  | .fcons _ v rest => containerIds v ++ idsFields rest

def idsElems : JSElems → List Nat
  | .enil => []
  | .econs v rest => containerIds v ++ idsElems rest

end

/-- Whether two values share (alias) a container. -/
def sharesAlias (a b : JSVal) : Bool :=
  (containerIds a).any (fun i => (containerIds b).contains i)

mutual

/-- _actions.cloneDeep (src/unnamed/part_003 lines 158-172): arrays and
plain objects are recursively copied into freshly allocated containers;
every other value is returned unchanged.  The Nat argument is the
allocation counter supplying fresh identity tags; the returned counter is
the next free tag. -/
def cloneDeep : JSVal → Nat → JSVal × Nat
  | .obj _ fs, n =>
    let r := cloneFields fs (n + 1)
    (.obj n r.1, r.2)
  | .arr _ es, n =>
    let r := cloneElems es (n + 1)
    (.arr n r.1, r.2)
  | v, n => (v, n)

def cloneFields : JSFields → Nat → JSFields × Nat
  | .fnil, n => (.fnil, n)
  | .fcons k v rest, n =>
    let rv := cloneDeep v n
    let rr := cloneFields rest rv.2
    (.fcons k rv.1 rr.1, rr.2)

def cloneElems : JSElems → Nat → JSElems × Nat
  | .enil, n => (.enil, n)
  | .econs v rest, n =>
    let rv := cloneDeep v n
    let rr := cloneElems rest rv.2
    (.econs rv.1 rr.1, rr.2)

end

mutual

/-- _actions.merge (src/unnamed/part_003 lines 183-201), for one source
object (the variadic form folds this over the source list; every call in
the repository passes a single source).  The target is mutated in place,
so the result keeps the identity tags of the target containers it
descends into; replaced or appended values are taken from the source by
reference.  When the target is not an object the per-key assignments have
no representable effect (the repository only merges into objects). -/
def merge : JSVal → JSVal → JSVal
  | .obj i tfs, .obj _ sfs => .obj i (mergeFields tfs sfs)
  | t, _ => t

/-- One Object.keys(mergeDict).forEach step of _actions.merge: for each
source key, when both current values are plain objects recurse, otherwise
assign `mergeDict[key] || targetDict[key]`. -/
def mergeFields : JSFields → JSFields → JSFields
  | tfs, .fnil => tfs
  | tfs, .fcons k sv rest =>
    let tv := jsGet tfs k
    let newv :=
      if isPlainObject tv && isPlainObject sv then merge tv sv
      else if truthy sv then sv else tv
    mergeFields (setKey tfs k newv) rest

end

/-- _actions.getValue (src/unnamed/part_003 lines 214-228): resolve a
field value from the schema default and the supplied value, threading the
allocation counter used by cloneDeep. -/
def getValue (defaultVal newVal : JSVal) (n : Nat) : JSVal × Nat :=
  if !(isUndefined newVal) then
    if isPlainObject newVal then
      let c := cloneDeep defaultVal n
      (merge c.1 newVal, c.2)
    else (newVal, n)
  else cloneDeep defaultVal n

/-- The state of a Watcher instance (src/src/watcher.js, current
revision): the observed baseline (_data), the deep flag and the immediate
flag from its options.  The handler closure is modelled by reporting each
invocation as an (oldValue, newValue) event to the caller. -/
structure WatcherState where
  data : JSVal
  deep : Bool
  immediate : Bool
deriving DecidableEq

/-- Watcher.emit (src/src/watcher.js lines 272-292): decide whether the
handler fires for a new value, and update the baseline when it does.
Returns the new watcher state and the handler invocation, if any. -/
def Watcher.emit (w : WatcherState) (newData : JSVal) :
    WatcherState × Option (JSVal × JSVal) :=
  if refEq w.data newData && !(isPlainObject newData) then (w, none)
  else if refEq w.data newData && isPlainObject newData && !w.deep then
    (w, none)
  else ({ w with data := newData }, some (w.data, newData))

/-- The state of a Computer instance (src/unnamed/part_005, current
revision): the cached value (_value) and the computed flag (_computed,
initially undefined hence false). -/
structure ComputerState where
  value : JSVal
  computed : Bool

/-- Computer get dollar-value (src/unnamed/part_005 lines 284-290)
composed with the dollar-get closure it calls (lines 219-224): every read
invokes the bound getter, stores its result, marks the cell computed and
returns the stored result.  The argument g is the value produced by the
bound getter at this read. -/
def Computer.value (_c : ComputerState) (g : JSVal) : JSVal × ComputerState :=
  (g, { value := g, computed := true })

/-- getUnionStructure (src/unnamed/part_003 lines 25-32): the object
spread { ...STRUCTURE, ...IMMUTABLE_STRUCTURE }. -/
def getUnionStructure (structure_ immutable : JSFields) : JSFields :=
  go structure_ immutable
where
  go : JSFields → JSFields → JSFields
    | acc, .fnil => acc
    | acc, .fcons k v rest => go (setKey acc k v) rest

/-- The reactive state of one DataModel instance: the boxed field values
(one Storer._data per key, src/src/storer.js lines 51-71), the per-key
accessor variant chosen by defineDataProperty at construction time (true
when the initial value was a plain object), the Watcher instances, the
number of successful updates (each one refreshes updatedTimeStamp) and
the allocation counter for fresh containers. -/
structure ModelState where
  storers : JSFields
  variants : List (String × Bool)
  watchers : List (String × WatcherState)
  updated : Nat
  next : Nat
deriving DecidableEq

/-- Look up the accessor variant recorded for a key. -/
def variantOf (vs : List (String × Bool)) (key : String) : Bool :=
  match vs with
  | [] => false
  | (k, b) :: rest => if k = key then b else variantOf rest key

/-- Look up the watcher attached to a key, if any. -/
def watcherOf (ws : List (String × WatcherState)) (key : String) :
    Option WatcherState :=
  match ws with
  | [] => none
  | (k, w) :: rest => if k = key then some w else watcherOf rest key

/-- Store a watcher under a key (this._watchers[key] = new Watcher(...)). -/
def putWatcher (ws : List (String × WatcherState)) (key : String)
    (w : WatcherState) : List (String × WatcherState) :=
  match ws with
  | [] => [(key, w)]
  | (k, w0) :: rest =>
    if k = key then (k, w) :: rest else (k, w0) :: putWatcher rest key w

/-- The per-key loop body of _actions.init (src/unnamed/part_003 lines
241-247): an immutable key resolves from the immutable constant alone
(getValue is called with a single argument, so the supplied value is
undefined); a mutable key resolves from its default and the supplied
data. -/
def initStorers (immutable structure_ data : JSFields) :
    List String → JSFields → Nat → JSFields × Nat
  | [], acc, n => (acc, n)
  | k :: rest, acc, n =>
    let r :=
      if hasKey immutable k then getValue (jsGet immutable k) .undefined n
      else getValue (jsGet structure_ k) (jsGet data k) n
    initStorers immutable structure_ data rest (setKey acc k r.1) r.2

/-- Record the accessor variant defineDataProperty (src/unnamed/part_003
lines 72-103) chooses for each key: the plain-object test is made once,
on the value stored at construction time. -/
def initVariants : JSFields → List (String × Bool)
  | .fnil => []
  | .fcons k v rest => (k, isPlainObject v) :: initVariants rest

/-- _actions.init (src/unnamed/part_003 lines 236-251) as invoked by the
constructor: build one Storer per union-structure key and define the
accessors.  The counter n supplies fresh identity tags for the clones;
the caller ensures the schema and data use tags below n. -/
def init (immutable structure_ data : JSFields) (n : Nat) : ModelState :=
  let r := initStorers immutable structure_ data
    (getUnionStructure structure_ immutable).keys .fnil n
  { storers := r.1
    variants := initVariants r.1
    watchers := []
    updated := 0
    next := r.2 }

mutual

/-- _actions.recursiveDefineObjectProperty (src/unnamed/part_003 lines
115-146), materialised: reading a container-valued field rebuilds a fresh
temporary object whose plain-object entries are recursively rebuilt views
and whose other entries are the stored values themselves, by reference.
Object.keys enumeration of non-objects yields index keys for strings and
arrays and nothing for other primitives (enumerating undefined or null
would throw; no claim exercises that). -/
def buildView : JSVal → Nat → JSVal × Nat
  | .obj _ fs, n =>
    let r := viewFields fs (n + 1)
    (.obj n r.1, r.2)
  | .arr _ es, n =>
    let r := viewElems es 0 (n + 1)
    (.obj n r.1, r.2)
  | .str s, n =>
    (.obj n (JSFields.ofList ((s.toList.enum).map
      (fun p => (toString p.1, .str (String.mk [p.2]))))), n + 1)
  | _, n => (.obj n .fnil, n + 1)

def viewFields : JSFields → Nat → JSFields × Nat
  | .fnil, n => (.fnil, n)
  | .fcons k v rest, n =>
    if isPlainObject v then
      let rv := buildView v n
      let rr := viewFields rest rv.2
      (.fcons k rv.1 rr.1, rr.2)
    else
      let rr := viewFields rest n
      (.fcons k v rr.1, rr.2)

def viewElems : JSElems → Nat → Nat → JSFields × Nat
  | .enil, _, n => (.fnil, n)
  | .econs v rest, i, n =>
    if isPlainObject v then
      let rv := buildView v n
      let rr := viewElems rest (i + 1) rv.2
      (.fcons (toString i) rv.1 rr.1, rr.2)
    else
      let rr := viewElems rest (i + 1) n
      (.fcons (toString i) v rr.1, rr.2)

end

/-- The reactiveGetter of defineDataProperty (src/unnamed/part_003 lines
78-80 and 91-93): a field whose construction-time value was a plain
object is read through a rebuilt view; any other field is read directly
from its Storer.  The counter supplies tags for the temporary view
objects; reading does not change the instance. -/
def reactiveGetter (st : ModelState) (key : String) (n : Nat) :
    JSVal × Nat :=
  if variantOf st.variants key then buildView (jsGet st.storers key) n
  else (jsGet st.storers key, n)

/-- The reactiveSetter of defineDataProperty (src/unnamed/part_003 lines
82-86 and 95-99), the path taken by a property assignment instance[key] =
value: update the Storer, then emit on the watcher for that key when one
exists.  Returns the new state and the handler invocation, if any. -/
def reactiveSetter (st : ModelState) (key : String) (val : JSVal) :
    ModelState × Option (JSVal × JSVal) :=
  let storers := updateExisting st.storers key val
  match watcherOf st.watchers key with
  | none => ({ st with storers := storers }, none)
  | some w =>
    let r := Watcher.emit w val
    ({ st with
        storers := storers
        watchers := putWatcher st.watchers key r.1 }, r.2)

/-- The reactiveSetter of recursiveDefineObjectProperty
(src/unnamed/part_003 lines 126-128 and 136-140): its entire body is
commented out in the current revision, so an assignment through a nested
accessor view changes nothing.  (The draft revision in
src/unnamed/part_002 lines 664-695 instead performs
_actions.setValueByPath into the underlying storage.) -/
def nestedViewSetter (st : ModelState) (_path : List String)
    (_val : JSVal) : ModelState :=
  st

/-- The result of DataModel.setValue: the new instance state, the watcher
handler invocations made during the call, and whether a warning was
logged. -/
structure SetValueResult where
  state : ModelState
  handlerCalls : List (JSVal × JSVal)
  warned : Bool

/-- DataModel.setValue (src/unnamed/part_003 lines 477-497): reject (with
a warning, changing nothing) a key of the immutable structure or a key
outside the mutable structure; otherwise update the Storer directly and
refresh updatedTimeStamp.  The body contains no watcher emission, so
handlerCalls is always empty. -/
def setValue (immutable structure_ : JSFields) (st : ModelState)
    (key : String) (value : JSVal) : SetValueResult :=
  if hasKey immutable key then ⟨st, [], true⟩
  else if !(hasKey structure_ key) then ⟨st, [], true⟩
  else
    ⟨{ st with
        storers := updateExisting st.storers key value
        updated := st.updated + 1 }, [], false⟩

/-- DataModel.watch (src/unnamed/part_003 lines 624-649) with an options
object: the baseline is the current value read through the property
accessor (watcherOptions.data = this[key]), and a Watcher is stored under
the key.  The Watcher constructor (src/src/watcher.js lines 175-187)
invokes the handler once with the baseline when immediate is set; that
invocation is returned as an event with undefined in second position. -/
def watch (st : ModelState) (key : String) (deep immediate : Bool) :
    ModelState × Option (JSVal × JSVal) :=
  let r := reactiveGetter st key st.next
  let w : WatcherState := { data := r.1, deep := deep, immediate := immediate }
  ({ st with watchers := putWatcher st.watchers key w, next := r.2 },
   if immediate then some (r.1, .undefined) else none)

/-- DataModel get dollar-data (src/unnamed/part_003 lines 452-461): a
fresh top-level object is allocated on every call, and each union key is
filled with the Storer value itself, by reference, with no clone. -/
def dataGetter (immutable structure_ : JSFields) (st : ModelState)
    (fresh : Nat) : JSVal :=
  .obj fresh (fill (getUnionStructure structure_ immutable).keys)
where
  fill : List String → JSFields
    | [] => .fnil
    | k :: rest => .fcons k (jsGet st.storers k) (fill rest)

/- ===== fixtures for witnesses and counterexamples ===== -/

/-- A one-field mutable schema: STRUCTURE = { count: 0 }. -/
def structCount : JSFields := .ofList [("count", .num 0)]

/-- An instance of the count schema, constructed with no data, then
given a shallow (deep = false, immediate = false) watcher on count via
watch, whose baseline is the stored 0. -/
def stCount : ModelState :=
  (watch (init (.ofList []) structCount (.ofList []) 0)
    "count" false false).1

/-- A schema with one container-valued field:
STRUCTURE = { profile: { age: 1, name: "x" } } (the default object has
identity tag 0). -/
def structProfile : JSFields :=
  .ofList [("profile", .obj 0 (.ofList [("age", .num 1), ("name", .str "x")]))]

/-- Construction data supplying { profile: { age: 2 } } (tag 2). -/
def dataProfile : JSFields :=
  .ofList [("profile", .obj 2 (.ofList [("age", .num 2)]))]

/-- An instance of the profile schema constructed with dataProfile;
allocation counter starts at 10, above every schema and data tag. -/
def stProfile : ModelState := init (.ofList []) structProfile dataProfile 10

/-- An instance of the profile schema constructed with no data. -/
def stProfileEmpty : ModelState :=
  init (.ofList []) structProfile (.ofList []) 10

/- ===== helper lemmas ===== -/

theorem jsGet_setKey_same : (fs : JSFields) → (k : String) → (v : JSVal) →
    jsGet (setKey fs k v) k = v
  | .fnil, k, v => by simp [setKey, jsGet]
  | .fcons k0 w rest, k, v => by
    by_cases h : k0 = k
    · simp [setKey, h, jsGet]
    · simp [setKey, h, jsGet, jsGet_setKey_same rest k v]

theorem jsGet_setKey_other : (fs : JSFields) → (k k2 : String) →
    (v : JSVal) → k ≠ k2 → jsGet (setKey fs k v) k2 = jsGet fs k2
  | .fnil, k, k2, v, h => by simp [setKey, jsGet, h]
  | .fcons k0 w rest, k, k2, v, h => by
    by_cases h0 : k0 = k
    · subst h0; simp [setKey, jsGet, h]
    · simp [setKey, h0, jsGet, jsGet_setKey_other rest k k2 v h]

theorem jsGet_updateExisting_same : (fs : JSFields) → (k : String) →
    (v : JSVal) → hasKey fs k = true → jsGet (updateExisting fs k v) k = v
  | .fnil, k, v, h => by simp [hasKey] at h
  | .fcons k0 w rest, k, v, h => by
    by_cases h0 : k0 = k
    · simp [updateExisting, h0, jsGet]
    · simp [hasKey, h0] at h
      simp [updateExisting, h0, jsGet, jsGet_updateExisting_same rest k v h]

theorem jsGet_updateExisting_other : (fs : JSFields) → (k k2 : String) →
    (v : JSVal) → k ≠ k2 → jsGet (updateExisting fs k v) k2 = jsGet fs k2
  | .fnil, k, k2, v, h => by simp [updateExisting]
  | .fcons k0 w rest, k, k2, v, h => by
    by_cases h0 : k0 = k
    · subst h0; simp [updateExisting, jsGet, h]
    · simp [updateExisting, h0, jsGet,
        jsGet_updateExisting_other rest k k2 v h]

theorem hasKey_iff_mem : (fs : JSFields) → (k : String) →
    (hasKey fs k = true ↔ k ∈ fs.keys)
  | .fnil, k => by simp [hasKey, JSFields.keys]
  | .fcons k0 w rest, k => by
    by_cases h0 : k0 = k
    · simp [hasKey, h0, JSFields.keys]
    · simp [hasKey, h0, JSFields.keys, hasKey_iff_mem rest k, Ne.symm h0]

theorem hasKey_setKey : (fs : JSFields) → (k k2 : String) → (v : JSVal) →
    hasKey (setKey fs k v) k2 = (hasKey fs k2 || (k = k2))
  | .fnil, k, k2, v => by simp [setKey, hasKey]
  | .fcons k0 w rest, k, k2, v => by
    by_cases h0 : k0 = k
    · subst h0
      by_cases h2 : k0 = k2 <;> simp [setKey, hasKey, h2]
    · simp [setKey, h0, hasKey, hasKey_setKey rest k k2 v, Bool.or_assoc]

theorem keys_setKey_of_has : (fs : JSFields) → (k : String) → (v : JSVal) →
    hasKey fs k = true → (setKey fs k v).keys = fs.keys
  | .fnil, k, v, h => by simp [hasKey] at h
  | .fcons k0 w rest, k, v, h => by
    by_cases h0 : k0 = k
    · simp [setKey, h0, JSFields.keys]
    · simp [hasKey, h0] at h
      simp [setKey, h0, JSFields.keys, keys_setKey_of_has rest k v h]

theorem keys_setKey_of_not : (fs : JSFields) → (k : String) → (v : JSVal) →
    hasKey fs k = false → (setKey fs k v).keys = fs.keys ++ [k]
  | .fnil, k, v, h => by simp [setKey, JSFields.keys]
  | .fcons k0 w rest, k, v, h => by
    rw [hasKey, Bool.or_eq_false_iff] at h
    have h0 : ¬(k0 = k) := by simpa using h.1
    simp [setKey, h0, JSFields.keys, keys_setKey_of_not rest k v h.2]

theorem keysNodup_setKey (fs : JSFields) (k : String) (v : JSVal)
    (h : keysNodup fs) : keysNodup (setKey fs k v) := by
  by_cases hk : hasKey fs k = true
  · unfold keysNodup
    rw [keys_setKey_of_has fs k v hk]
    exact h
  · unfold keysNodup
    rw [keys_setKey_of_not fs k v (by simpa using hk)]
    refine List.Nodup.append h (List.nodup_singleton k) ?_
    intro a ha hb
    simp at hb
    subst hb
    exact hk ((hasKey_iff_mem fs a).2 ha)

theorem hasKey_unionGo : (rest acc : JSFields) → (k : String) →
    hasKey (getUnionStructure.go acc rest) k = (hasKey acc k || hasKey rest k)
  | .fnil, acc, k => by simp [getUnionStructure.go, hasKey]
  | .fcons k0 v rest, acc, k => by
    rw [getUnionStructure.go, hasKey_unionGo rest (setKey acc k0 v) k,
      hasKey_setKey, hasKey]
    cases hasKey acc k <;> cases hasKey rest k <;> simp

theorem hasKey_union (structure_ immutable : JSFields) (k : String) :
    hasKey (getUnionStructure structure_ immutable) k
      = (hasKey structure_ k || hasKey immutable k) := by
  rw [getUnionStructure, hasKey_unionGo]

theorem keysNodup_unionGo : (rest acc : JSFields) → keysNodup acc →
    keysNodup (getUnionStructure.go acc rest)
  | .fnil, acc, h => h
  | .fcons k0 v rest, acc, h => by
    rw [getUnionStructure.go]
    exact keysNodup_unionGo rest (setKey acc k0 v) (keysNodup_setKey acc k0 v h)

theorem keysNodup_union (structure_ immutable : JSFields)
    (h : keysNodup structure_) :
    keysNodup (getUnionStructure structure_ immutable) :=
  keysNodup_unionGo immutable structure_ h

theorem initStorers_notin (immutable structure_ data : JSFields)
    (k : String) :
    ∀ (ks : List String) (acc : JSFields) (n : Nat), k ∉ ks →
      jsGet (initStorers immutable structure_ data ks acc n).1 k
        = jsGet acc k := by
  intro ks
  induction ks with
  | nil => intro acc n _; rfl
  | cons k0 rest ih =>
    intro acc n hk
    rw [initStorers]
    rw [ih _ _ (by simp at hk; exact hk.2)]
    exact jsGet_setKey_other _ _ _ _ (by simp at hk; exact fun h => hk.1 h.symm)

theorem initStorers_get (immutable structure_ data : JSFields)
    (k : String) :
    ∀ (ks : List String) (acc : JSFields) (n : Nat), k ∈ ks → ks.Nodup →
      ∃ m, jsGet (initStorers immutable structure_ data ks acc n).1 k
        = (if hasKey immutable k then getValue (jsGet immutable k) .undefined m
           else getValue (jsGet structure_ k) (jsGet data k) m).1 := by
  intro ks
  induction ks with
  | nil => intro acc n hk; simp at hk
  | cons k0 rest ih =>
    intro acc n hk hnd
    rw [initStorers]
    rcases List.mem_cons.1 hk with heq | hmem
    · subst heq
      refine ⟨n, ?_⟩
      rw [initStorers_notin immutable structure_ data k rest _ _
        (by simpa using (List.nodup_cons.1 hnd).1)]
      rw [jsGet_setKey_same]
    · exact ih _ _ hmem (List.nodup_cons.1 hnd).2

mutual

theorem valEq_refl : (v : JSVal) → valEq v v = true
  | .undefined => rfl
  | .nul => rfl
  | .bool b => by simp [valEq]
  | .num i => by simp [valEq]
  | .str s => by simp [valEq]
  | .obj i fs => by simp [valEq, valEqFields_refl fs]
  | .arr i es => by simp [valEq, valEqElems_refl es]

theorem valEqFields_refl : (fs : JSFields) → valEqFields fs fs = true
  | .fnil => rfl
  | .fcons k v rest => by
    simp [valEqFields, valEq_refl v, valEqFields_refl rest]

theorem valEqElems_refl : (es : JSElems) → valEqElems es es = true
  | .enil => rfl
  | .econs v rest => by
    simp [valEqElems, valEq_refl v, valEqElems_refl rest]

end

mutual

theorem valEq_clone : (v : JSVal) → (n : Nat) →
    valEq (cloneDeep v n).1 v = true
  | .undefined, _ => rfl
  | .nul, _ => rfl
  | .bool b, _ => by simp [cloneDeep, valEq]
  | .num i, _ => by simp [cloneDeep, valEq]
  | .str s, _ => by simp [cloneDeep, valEq]
  | .obj i fs, n => by
    simp [cloneDeep, valEq, valEqFields_cloneFields fs (n + 1)]
  | .arr i es, n => by
    simp [cloneDeep, valEq, valEqElems_cloneElems es (n + 1)]

theorem valEqFields_cloneFields : (fs : JSFields) → (n : Nat) →
    valEqFields (cloneFields fs n).1 fs = true
  | .fnil, _ => rfl
  | .fcons k v rest, n => by
    simp [cloneFields, valEqFields, valEq_clone v n,
      valEqFields_cloneFields rest (cloneDeep v n).2]

theorem valEqElems_cloneElems : (es : JSElems) → (n : Nat) →
    valEqElems (cloneElems es n).1 es = true
  | .enil, _ => rfl
  | .econs v rest, n => by
    simp [cloneElems, valEqElems, valEq_clone v n,
      valEqElems_cloneElems rest (cloneDeep v n).2]

end

mutual

theorem cloneDeep_counter_le : (v : JSVal) → (n : Nat) →
    n ≤ (cloneDeep v n).2
  | .undefined, n => le_refl n
  | .nul, n => le_refl n
  | .bool _, n => le_refl n
  | .num _, n => le_refl n
  | .str _, n => le_refl n
  | .obj _ fs, n => by
    have h := cloneFields_counter_le fs (n + 1)
    simp only [cloneDeep]
    omega
  | .arr _ es, n => by
    have h := cloneElems_counter_le es (n + 1)
    simp only [cloneDeep]
    omega

theorem cloneFields_counter_le : (fs : JSFields) → (n : Nat) →
    n ≤ (cloneFields fs n).2
  | .fnil, n => le_refl n
  | .fcons _ v rest, n => by
    have h1 := cloneDeep_counter_le v n
    have h2 := cloneFields_counter_le rest (cloneDeep v n).2
    simp only [cloneFields]
    omega

theorem cloneElems_counter_le : (es : JSElems) → (n : Nat) →
    n ≤ (cloneElems es n).2
  | .enil, n => le_refl n
  | .econs v rest, n => by
    have h1 := cloneDeep_counter_le v n
    have h2 := cloneElems_counter_le rest (cloneDeep v n).2
    simp only [cloneElems]
    omega

end

mutual

theorem cloneDeep_ids_ge : (v : JSVal) → (n i : Nat) →
    i ∈ containerIds (cloneDeep v n).1 → n ≤ i
  | .undefined, n, i, h => by simp [cloneDeep, containerIds] at h
  | .nul, n, i, h => by simp [cloneDeep, containerIds] at h
  | .bool _, n, i, h => by simp [cloneDeep, containerIds] at h
  | .num _, n, i, h => by simp [cloneDeep, containerIds] at h
  | .str _, n, i, h => by simp [cloneDeep, containerIds] at h
  | .obj _ fs, n, i, h => by
    simp only [cloneDeep, containerIds, List.mem_cons] at h
    rcases h with h | h
    · omega
    · have := cloneFields_ids_ge fs (n + 1) i h
      omega
  | .arr _ es, n, i, h => by
    simp only [cloneDeep, containerIds, List.mem_cons] at h
    rcases h with h | h
    · omega
    · have := cloneElems_ids_ge es (n + 1) i h
      omega

theorem cloneFields_ids_ge : (fs : JSFields) → (n i : Nat) →
    i ∈ idsFields (cloneFields fs n).1 → n ≤ i
  | .fnil, n, i, h => by simp [cloneFields, idsFields] at h
  | .fcons _ v rest, n, i, h => by
    simp only [cloneFields, idsFields, List.mem_append] at h
    rcases h with h | h
    · exact cloneDeep_ids_ge v n i h
    · have h1 := cloneDeep_counter_le v n
      have h2 := cloneFields_ids_ge rest (cloneDeep v n).2 i h
      omega

theorem cloneElems_ids_ge : (es : JSElems) → (n i : Nat) →
    i ∈ idsElems (cloneElems es n).1 → n ≤ i
  | .enil, n, i, h => by simp [cloneElems, idsElems] at h
  | .econs v rest, n, i, h => by
    simp only [cloneElems, idsElems, List.mem_append] at h
    rcases h with h | h
    · exact cloneDeep_ids_ge v n i h
    · have h1 := cloneDeep_counter_le v n
      have h2 := cloneElems_ids_ge rest (cloneDeep v n).2 i h
      omega

end

theorem merge_of_not_obj (t s : JSVal)
    (h : isPlainObject t = false ∨ isPlainObject s = false) :
    merge t s = t := by
  unfold merge
  split
  · simp [isPlainObject] at h
  · rfl

theorem ids_jsGet : (tfs : JSFields) → (k : String) → (i : Nat) →
    i ∈ containerIds (jsGet tfs k) → i ∈ idsFields tfs
  | .fnil, k, i, h => by simp [jsGet, containerIds] at h
  | .fcons k0 v rest, k, i, h => by
    by_cases h0 : k0 = k
    · simp only [jsGet, h0, if_pos] at h
      simp only [idsFields, List.mem_append]
      exact Or.inl h
    · simp only [jsGet, h0, if_neg, ite_false] at h
      simp only [idsFields, List.mem_append]
      exact Or.inr (ids_jsGet rest k i h)

theorem ids_setKey : (tfs : JSFields) → (k : String) → (v : JSVal) →
    (i : Nat) → i ∈ idsFields (setKey tfs k v) →
    i ∈ idsFields tfs ∨ i ∈ containerIds v
  | .fnil, k, v, i, h => by
    simp only [setKey, idsFields, List.mem_append] at h
    rcases h with h | h
    · exact Or.inr h
    · simp at h
  | .fcons k0 w rest, k, v, i, h => by
    by_cases h0 : k0 = k
    · simp only [setKey, h0, if_pos, idsFields, List.mem_append] at h
      rcases h with h | h
      · exact Or.inr h
      · exact Or.inl (by simp only [idsFields, List.mem_append]; exact Or.inr h)
    · simp only [setKey, h0, if_neg, ite_false, idsFields,
        List.mem_append] at h
      rcases h with h | h
      · exact Or.inl (by simp only [idsFields, List.mem_append]; exact Or.inl h)
      · rcases ids_setKey rest k v i h with h2 | h2
        · exact Or.inl (by
            simp only [idsFields, List.mem_append]; exact Or.inr h2)
        · exact Or.inr h2

mutual

theorem merge_ids : (s t : JSVal) → (i : Nat) →
    i ∈ containerIds (merge t s) →
    i ∈ containerIds t ∨ i ∈ containerIds s
  | .undefined, t, i, h =>
    Or.inl (by rwa [merge_of_not_obj t .undefined (Or.inr rfl)] at h)
  | .nul, t, i, h =>
    Or.inl (by rwa [merge_of_not_obj t .nul (Or.inr rfl)] at h)
  | .bool b, t, i, h =>
    Or.inl (by rwa [merge_of_not_obj t (.bool b) (Or.inr rfl)] at h)
  | .num m, t, i, h =>
    Or.inl (by rwa [merge_of_not_obj t (.num m) (Or.inr rfl)] at h)
  | .str s0, t, i, h =>
    Or.inl (by rwa [merge_of_not_obj t (.str s0) (Or.inr rfl)] at h)
  | .arr ai es, t, i, h =>
    Or.inl (by rwa [merge_of_not_obj t (.arr ai es) (Or.inr rfl)] at h)
  | .obj si sfs, .undefined, i, h => Or.inl h
  | .obj si sfs, .nul, i, h => Or.inl h
  | .obj si sfs, .bool b, i, h => Or.inl h
  | .obj si sfs, .num m, i, h => Or.inl h
  | .obj si sfs, .str s0, i, h => Or.inl h
  | .obj si sfs, .arr ai es, i, h => Or.inl h
  | .obj si sfs, .obj ti tfs, i, h => by
    simp only [merge, containerIds, List.mem_cons] at h
    rcases h with h | h
    · exact Or.inl (by simp [containerIds, h])
    · rcases mergeFields_ids sfs tfs i h with h2 | h2
      · exact Or.inl (by simp [containerIds]; exact Or.inr h2)
      · exact Or.inr (by simp [containerIds]; exact Or.inr h2)

theorem mergeFields_ids : (sfs tfs : JSFields) → (i : Nat) →
    i ∈ idsFields (mergeFields tfs sfs) →
    i ∈ idsFields tfs ∨ i ∈ idsFields sfs
  | .fnil, tfs, i, h => Or.inl h
  | .fcons k sv rest, tfs, i, h => by
    rw [mergeFields] at h
    rcases mergeFields_ids rest _ i h with h1 | h1
    · rcases ids_setKey tfs k _ i h1 with h2 | h2
      · exact Or.inl h2
      · by_cases hc : isPlainObject (jsGet tfs k) && isPlainObject sv
        · simp only [hc, if_pos] at h2
          rcases merge_ids sv (jsGet tfs k) i h2 with h3 | h3
          · exact Or.inl (ids_jsGet tfs k i h3)
          · exact Or.inr (by
              simp only [idsFields, List.mem_append]; exact Or.inl h3)
        · simp only [hc, Bool.false_eq_true, if_neg, ite_false] at h2
          by_cases ht : truthy sv
          · simp only [ht, if_pos] at h2
            exact Or.inr (by
              simp only [idsFields, List.mem_append]; exact Or.inl h2)
          · simp only [ht, Bool.false_eq_true, if_neg, ite_false] at h2
            exact Or.inl (ids_jsGet tfs k i h2)
    · exact Or.inr (by
        simp only [idsFields, List.mem_append]; exact Or.inr h1)

end

theorem mergeFields_get_not : (sfs tfs : JSFields) → (k : String) →
    hasKey sfs k = false → jsGet (mergeFields tfs sfs) k = jsGet tfs k
  | .fnil, tfs, k, h => rfl
  | .fcons k0 sv rest, tfs, k, h => by
    rw [hasKey, Bool.or_eq_false_iff] at h
    have h0 : ¬(k0 = k) := by simpa using h.1
    rw [mergeFields, mergeFields_get_not rest _ k h.2]
    exact jsGet_setKey_other _ _ _ _ h0

theorem mergeFields_get : (sfs tfs : JSFields) → (k : String) →
    keysNodup sfs → hasKey sfs k = true →
    jsGet (mergeFields tfs sfs) k =
      (if isPlainObject (jsGet tfs k) && isPlainObject (jsGet sfs k) then
        merge (jsGet tfs k) (jsGet sfs k)
      else if truthy (jsGet sfs k) then jsGet sfs k else jsGet tfs k)
  | .fnil, tfs, k, _, h => by simp [hasKey] at h
  | .fcons k0 sv rest, tfs, k, hnd, h => by
    have hnd2 : keysNodup rest ∧ k0 ∉ rest.keys := by
      have := hnd
      unfold keysNodup at this ⊢
      rw [JSFields.keys] at this
      exact ⟨(List.nodup_cons.1 this).2, (List.nodup_cons.1 this).1⟩
    by_cases h0 : k0 = k
    · subst h0
      have hrest : hasKey rest k0 = false := by
        by_contra hc
        exact hnd2.2 ((hasKey_iff_mem rest k0).1 (by simpa using hc))
      rw [mergeFields, mergeFields_get_not rest _ k0 hrest,
        jsGet_setKey_same]
      simp [jsGet]
    · have hrest : hasKey rest k = true := by
        rw [hasKey] at h
        simpa [h0] using h
      rw [mergeFields, mergeFields_get rest _ k hnd2.1 hrest,
        jsGet_setKey_other _ _ _ _ h0]
      simp [jsGet, h0]

theorem getValue_undef (d : JSVal) (n : Nat) :
    getValue d .undefined n = cloneDeep d n := by
  simp [getValue, isUndefined]

/- ===== claim theorems ===== -/

/-- C1: for every key k of the immutable structure, construction stores a
deep clone of the schema constant for k (whatever data is supplied: the
resolver for immutable keys is called without the supplied data, so the
stored value is a clone of the constant, structurally equal to it), and
no setValue call on k ever changes the instance state. -/
theorem c1_immutable_field_fixed
    (immutable structure_ data : JSFields) (k : String) (n : Nat)
    (hs : keysNodup structure_) (hk : hasKey immutable k = true) :
    (∃ m, jsGet (init immutable structure_ data n).storers k
        = (cloneDeep (jsGet immutable k) m).1
      ∧ valEq (jsGet (init immutable structure_ data n).storers k)
          (jsGet immutable k) = true)
    ∧ ∀ (st : ModelState) (v : JSVal),
        (setValue immutable structure_ st k v).state = st := by
  constructor
  · have hmem : k ∈ (getUnionStructure structure_ immutable).keys := by
      apply (hasKey_iff_mem _ _).1
      rw [hasKey_union]
      simp [hk]
    have hnd : ((getUnionStructure structure_ immutable).keys).Nodup :=
      keysNodup_union _ _ hs
    obtain ⟨m, hm⟩ :=
      initStorers_get immutable structure_ data k
        (getUnionStructure structure_ immutable).keys .fnil n hmem hnd
    rw [hk] at hm
    simp only [if_pos] at hm
    rw [getValue_undef] at hm
    refine ⟨m, ?_, ?_⟩
    · simpa [init] using hm
    · have : jsGet (init immutable structure_ data n).storers k
          = (cloneDeep (jsGet immutable k) m).1 := by simpa [init] using hm
      rw [this]
      exact valEq_clone _ _
  · intro st v
    simp [setValue, hk]

/-- Witness for C1 at a concrete schema: immutable key isHandsome keeps
the constant true even though the construction data supplies false. -/
theorem c1_immutable_field_fixed_witness :
    keysNodup (JSFields.ofList [("id", .num 10)])
    ∧ hasKey (JSFields.ofList [("isHandsome", .bool true)]) "isHandsome"
        = true
    ∧ ((∃ m, jsGet (init (JSFields.ofList [("isHandsome", .bool true)])
            (JSFields.ofList [("id", .num 10)])
            (JSFields.ofList [("isHandsome", .bool false), ("id", .num 3)])
            0).storers "isHandsome"
          = (cloneDeep
              (jsGet (JSFields.ofList [("isHandsome", .bool true)])
                "isHandsome") m).1
        ∧ valEq (jsGet (init (JSFields.ofList [("isHandsome", .bool true)])
            (JSFields.ofList [("id", .num 10)])
            (JSFields.ofList [("isHandsome", .bool false), ("id", .num 3)])
            0).storers "isHandsome")
            (jsGet (JSFields.ofList [("isHandsome", .bool true)])
              "isHandsome") = true)
      ∧ ∀ (st : ModelState) (v : JSVal),
          (setValue (JSFields.ofList [("isHandsome", .bool true)])
            (JSFields.ofList [("id", .num 10)]) st "isHandsome" v).state
            = st) :=
  ⟨by unfold keysNodup; decide, by decide,
    c1_immutable_field_fixed _ _ _ _ 0 (by unfold keysNodup; decide)
      (by decide)⟩

theorem jsGet_of_not_hasKey : (fs : JSFields) → (k : String) →
    hasKey fs k = false → jsGet fs k = .undefined
  | .fnil, k, _ => rfl
  | .fcons k0 v rest, k, h => by
    rw [hasKey, Bool.or_eq_false_iff] at h
    have h0 : ¬(k0 = k) := by simpa using h.1
    rw [jsGet, if_neg h0]
    exact jsGet_of_not_hasKey rest k h.2

/-- C7: for every target object, source object and key, the merge of the
two resolves that key to: the recursive merge when both current values
are plain objects; the source value when it is truthy; the unchanged
target value when the source value is falsy (0, empty string, false,
null, undefined, including keys the source lacks).  The function returns
the mutated target object itself (same identity). -/
theorem c7_merge_per_key (ti si : Nat) (tfs sfs : JSFields)
    (hnd : keysNodup sfs) :
    (∀ k, jsGet (mergeFields tfs sfs) k =
      (if isPlainObject (jsGet tfs k) && isPlainObject (jsGet sfs k) then
        merge (jsGet tfs k) (jsGet sfs k)
      else if truthy (jsGet sfs k) then jsGet sfs k else jsGet tfs k))
    ∧ merge (.obj ti tfs) (.obj si sfs) = .obj ti (mergeFields tfs sfs)
    ∧ refEq (merge (.obj ti tfs) (.obj si sfs)) (.obj ti tfs) = true := by
  refine ⟨?_, rfl, by simp [merge, refEq]⟩
  intro k
  by_cases hk : hasKey sfs k = true
  · exact mergeFields_get sfs tfs k hnd hk
  · have hk2 : hasKey sfs k = false := by simpa using hk
    rw [mergeFields_get_not sfs tfs k hk2, jsGet_of_not_hasKey sfs k hk2]
    simp [isPlainObject, truthy]

/-- Witness for C7 at a concrete pair of objects, including a falsy
override (the source value 0 for key b leaves the target value 2 in
place). -/
theorem c7_merge_per_key_witness :
    keysNodup (JSFields.ofList [("b", .num 0), ("c", .num 7)])
    ∧ ((∀ k, jsGet (mergeFields
          (JSFields.ofList [("a", .num 1), ("b", .num 2)])
          (JSFields.ofList [("b", .num 0), ("c", .num 7)])) k =
        (if isPlainObject (jsGet
              (JSFields.ofList [("a", .num 1), ("b", .num 2)]) k)
            && isPlainObject (jsGet
              (JSFields.ofList [("b", .num 0), ("c", .num 7)]) k) then
          merge (jsGet (JSFields.ofList [("a", .num 1), ("b", .num 2)]) k)
            (jsGet (JSFields.ofList [("b", .num 0), ("c", .num 7)]) k)
        else if truthy (jsGet
            (JSFields.ofList [("b", .num 0), ("c", .num 7)]) k) then
          jsGet (JSFields.ofList [("b", .num 0), ("c", .num 7)]) k
        else jsGet (JSFields.ofList [("a", .num 1), ("b", .num 2)]) k))
      ∧ merge (.obj 0 (JSFields.ofList [("a", .num 1), ("b", .num 2)]))
          (.obj 1 (JSFields.ofList [("b", .num 0), ("c", .num 7)]))
        = .obj 0 (mergeFields (JSFields.ofList [("a", .num 1), ("b", .num 2)])
            (JSFields.ofList [("b", .num 0), ("c", .num 7)]))
      ∧ refEq (merge (.obj 0 (JSFields.ofList [("a", .num 1), ("b", .num 2)]))
          (.obj 1 (JSFields.ofList [("b", .num 0), ("c", .num 7)])))
          (.obj 0 (JSFields.ofList [("a", .num 1), ("b", .num 2)])) = true) :=
  ⟨by unfold keysNodup; decide,
    c7_merge_per_key 0 1 _ _ (by unfold keysNodup; decide)⟩

/-- C8: a setValue call whose key is immutable or unknown is a no-op: a
warning is logged, the instance state is returned unchanged, no watcher
handler runs, and (the embedding being a total function) no exception is
thrown. -/
theorem c8_setValue_rejected_noop (immutable structure_ : JSFields)
    (st : ModelState) (k : String) (v : JSVal)
    (h : hasKey immutable k = true ∨ hasKey structure_ k = false) :
    setValue immutable structure_ st k v = ⟨st, [], true⟩ := by
  rcases h with h | h
  · simp [setValue, h]
  · by_cases h2 : hasKey immutable k = true
    · simp [setValue, h2]
    · simp [setValue, h2, h]

/-- Witness for C8: writing the immutable key isHandsome, and the unknown
key nope, both leave a concrete instance state untouched and warn. -/
theorem c8_setValue_rejected_noop_witness :
    (hasKey (JSFields.ofList [("isHandsome", .bool true)]) "isHandsome"
        = true
      ∨ hasKey (JSFields.ofList [("id", .num 10)]) "isHandsome" = false)
    ∧ setValue (JSFields.ofList [("isHandsome", .bool true)])
        (JSFields.ofList [("id", .num 10)])
        { storers := JSFields.ofList [("id", .num 10)]
          variants := [("id", false)]
          watchers := []
          updated := 0
          next := 0 } "isHandsome" (.num 99)
      = ⟨{ storers := JSFields.ofList [("id", .num 10)]
           variants := [("id", false)]
           watchers := []
           updated := 0
           next := 0 }, [], true⟩ :=
  ⟨Or.inl (by decide),
    c8_setValue_rejected_noop _ _ _ "isHandsome" (.num 99)
      (Or.inl (by decide))⟩

mutual

theorem buildView_valEq : (v : JSVal) → (n : Nat) →
    isPlainObject v = true → valEq (buildView v n).1 v = true
  | .obj _ fs, n, _ => by
    simp [buildView, valEq, viewFields_valEq fs (n + 1)]
  | .undefined, _, h => by simp [isPlainObject] at h
  | .nul, _, h => by simp [isPlainObject] at h
  | .bool _, _, h => by simp [isPlainObject] at h
  | .num _, _, h => by simp [isPlainObject] at h
  | .str _, _, h => by simp [isPlainObject] at h
  | .arr _ _, _, h => by simp [isPlainObject] at h

theorem viewFields_valEq : (fs : JSFields) → (n : Nat) →
    valEqFields (viewFields fs n).1 fs = true
  | .fnil, _ => rfl
  | .fcons k v rest, n => by
    by_cases hv : isPlainObject v = true
    · simp [viewFields, hv, valEqFields, buildView_valEq v n hv,
        viewFields_valEq rest (buildView v n).2]
    · simp [viewFields, hv, valEqFields, valEq_refl v,
        viewFields_valEq rest n]

end

/-- C9: for a mutable key and a compatible value (a plain object when the
accessor was defined in its recursive form, that is when the field held a
plain object at construction time), setValue followed by a property read
through the accessor yields a value structurally equal to the written
one. -/
theorem c9_setValue_read_roundtrip (immutable structure_ : JSFields)
    (st : ModelState) (k : String) (x : JSVal) (fresh : Nat)
    (h1 : hasKey immutable k = false) (h2 : hasKey structure_ k = true)
    (h3 : hasKey st.storers k = true)
    (h4 : variantOf st.variants k = true → isPlainObject x = true) :
    valEq (reactiveGetter (setValue immutable structure_ st k x).state
      k fresh).1 x = true := by
  have hset : (setValue immutable structure_ st k x).state
      = { st with
            storers := updateExisting st.storers k x
            updated := st.updated + 1 } := by
    simp [setValue, h1, h2]
  rw [hset]
  by_cases hv : variantOf st.variants k = true
  · have hx := h4 hv
    simp only [reactiveGetter, hv, if_pos]
    rw [jsGet_updateExisting_same st.storers k x h3]
    exact buildView_valEq x fresh hx
  · simp only [reactiveGetter, hv]
    simp only [Bool.false_eq_true, if_neg, ite_false]
    rw [jsGet_updateExisting_same st.storers k x h3]
    exact valEq_refl x

/-- Witness for C9: on the profile schema, writing a new plain object
through setValue and reading the field back through the accessor yields a
structurally equal value. -/
theorem c9_setValue_read_roundtrip_witness :
    hasKey (.ofList []) "profile" = false
    ∧ hasKey structProfile "profile" = true
    ∧ hasKey stProfileEmpty.storers "profile" = true
    ∧ (variantOf stProfileEmpty.variants "profile" = true →
        isPlainObject (.obj 5 (.ofList [("age", .num 9)])) = true)
    ∧ valEq (reactiveGetter
        (setValue (.ofList []) structProfile stProfileEmpty "profile"
          (.obj 5 (.ofList [("age", .num 9)]))).state
        "profile" 99).1 (.obj 5 (.ofList [("age", .num 9)])) = true :=
  ⟨by decide, by decide, by decide, by decide,
    c9_setValue_read_roundtrip (.ofList []) structProfile stProfileEmpty
      "profile" (.obj 5 (.ofList [("age", .num 9)])) 99
      (by decide) (by decide) (by decide) (by decide)⟩

/-- C2 counterexample: on the count schema with a shallow watcher whose
baseline is 0, setValue("count", 5) changes the stored value from the
baseline reference (a different value entirely), yet the handler is not
invoked at all: DataModel.setValue writes the Storer directly and never
emits on the watcher, so the claim that it invokes the handler exactly
once is false. -/
theorem c2_setValue_never_notifies_cex :
    ¬ ((setValue (.ofList []) structCount stCount "count"
        (.num 5)).handlerCalls.length = 1)
    ∧ jsGet (setValue (.ofList []) structCount stCount "count"
        (.num 5)).state.storers "count" = .num 5
    ∧ watcherOf stCount.watchers "count"
        = some { data := .num 0, deep := false, immediate := false } := by
  refine ⟨by decide, by rfl, by rfl⟩

/-- C2 amended: DataModel.setValue never notifies watchers (its body
contains no emit, so its handler-call list is always empty); the claimed
firing discipline holds instead for writes through the property accessor
(reactiveSetter): with deep = false, a write whose value is
reference-identical to the baseline does not invoke the handler, a write
with a different reference invokes it exactly once with (oldValue,
newValue), and with deep = true a reference-identical write invokes the
handler exactly when the value is a plain object (arrays and scalars do
not fire). -/
theorem c2_accessor_write_notifies (st : ModelState) (k : String)
    (v : JSVal) (w : WatcherState)
    (hw : watcherOf st.watchers k = some w) :
    (w.deep = false → refEq w.data v = true →
      (reactiveSetter st k v).2 = none)
    ∧ (refEq w.data v = false →
      (reactiveSetter st k v).2 = some (w.data, v))
    ∧ (w.deep = true → refEq w.data v = true → isPlainObject v = true →
      (reactiveSetter st k v).2 = some (w.data, v))
    ∧ ∀ (immutable structure_ : JSFields) (st2 : ModelState),
        (setValue immutable structure_ st2 k v).handlerCalls = [] := by
  refine ⟨?_, ?_, ?_, ?_⟩
  · intro hdeep hre
    by_cases hobj : isPlainObject v = true
    · simp [reactiveSetter, hw, Watcher.emit, hre, hobj, hdeep]
    · simp [reactiveSetter, hw, Watcher.emit, hre,
        (by simpa using hobj : isPlainObject v = false)]
  · intro hre
    simp [reactiveSetter, hw, Watcher.emit, hre]
  · intro hdeep hre hobj
    simp [reactiveSetter, hw, Watcher.emit, hre, hobj, hdeep]
  · intro immutable structure_ st2
    unfold setValue
    split
    · rfl
    · split
      · rfl
      · rfl

/-- Witness for C2 amended: on the count instance, writing 5 through the
accessor fires the handler once with (0, 5); setValue at another state
produces no handler call. -/
theorem c2_accessor_write_notifies_witness :
    watcherOf stCount.watchers "count"
      = some { data := .num 0, deep := false, immediate := false }
    ∧ ((({ data := .num 0, deep := false, immediate := false }
          : WatcherState).deep = false →
        refEq (JSVal.num 0) (.num 5) = true →
        (reactiveSetter stCount "count" (.num 5)).2 = none)
      ∧ (refEq (JSVal.num 0) (.num 5) = false →
        (reactiveSetter stCount "count" (.num 5)).2
          = some (.num 0, .num 5))
      ∧ ((({ data := .num 0, deep := false, immediate := false }
            : WatcherState).deep = true →
          refEq (JSVal.num 0) (.num 5) = true →
          isPlainObject (.num 5) = true →
          (reactiveSetter stCount "count" (.num 5)).2
            = some (.num 0, .num 5)))
      ∧ ∀ (immutable structure_ : JSFields) (st2 : ModelState),
          (setValue immutable structure_ st2 "count"
            (.num 5)).handlerCalls = []) :=
  ⟨by rfl,
    c2_accessor_write_notifies stCount "count" (.num 5)
      { data := .num 0, deep := false, immediate := false } (by rfl)⟩

/-- C3 counterexample: a deep-mode watcher whose baseline is an array,
emitted the very same array (reference-identical container), does not
fire: Watcher.emit tests isPlainObject only, so a reference-identical
array is treated like a scalar and the first guard returns without
invoking the handler, contradicting the claim that a reference-identical
container fires exactly when deep mode is enabled. -/
theorem c3_same_array_deep_no_fire_cex :
    refEq (JSVal.arr 7 .enil) (JSVal.arr 7 .enil) = true
    ∧ ({ data := JSVal.arr 7 .enil, deep := true, immediate := false }
        : WatcherState).deep = true
    ∧ Watcher.emit
        { data := JSVal.arr 7 .enil, deep := true, immediate := false }
        (JSVal.arr 7 .enil)
      = ({ data := JSVal.arr 7 .enil, deep := true, immediate := false },
          none) :=
  ⟨by decide, by decide, by rfl⟩

/-- C3 amended: Watcher.emit does not fire for a value reference-identical
to the baseline unless the value is a plain object and deep mode is
enabled (reference-identical arrays, like scalars, never fire); a value
differing from the baseline by reference always fires; and whenever it
fires the handler receives (previousValue, newValue) and the baseline is
overwritten with the new value. -/
theorem c3_emit_firing_rule (w : WatcherState) (v : JSVal) :
    (refEq w.data v = true → isPlainObject v = false →
      Watcher.emit w v = (w, none))
    ∧ (refEq w.data v = true → isPlainObject v = true →
      Watcher.emit w v =
        (if w.deep then ({ w with data := v }, some (w.data, v))
         else (w, none)))
    ∧ (refEq w.data v = false →
      Watcher.emit w v = ({ w with data := v }, some (w.data, v))) := by
  refine ⟨?_, ?_, ?_⟩
  · intro hre hobj
    simp [Watcher.emit, hre, hobj]
  · intro hre hobj
    by_cases hd : w.deep = true
    · simp [Watcher.emit, hre, hobj, hd]
    · simp [Watcher.emit, hre, hobj,
        (by simpa using hd : w.deep = false)]
  · intro hre
    simp [Watcher.emit, hre]

/-- Witness for C3 amended, at a deep-mode watcher over a plain object
emitted reference-identically: the handler fires and the baseline is
rewritten. -/
theorem c3_emit_firing_rule_witness :
    refEq (JSVal.obj 4 .fnil) (JSVal.obj 4 .fnil) = true
    ∧ ((refEq (JSVal.obj 4 .fnil) (JSVal.obj 4 .fnil) = true →
        isPlainObject (JSVal.obj 4 .fnil) = false →
        Watcher.emit
          { data := JSVal.obj 4 .fnil, deep := true, immediate := false }
          (JSVal.obj 4 .fnil)
          = ({ data := JSVal.obj 4 .fnil, deep := true,
               immediate := false }, none))
      ∧ (refEq (JSVal.obj 4 .fnil) (JSVal.obj 4 .fnil) = true →
        isPlainObject (JSVal.obj 4 .fnil) = true →
        Watcher.emit
          { data := JSVal.obj 4 .fnil, deep := true, immediate := false }
          (JSVal.obj 4 .fnil)
          = (if ({ data := JSVal.obj 4 .fnil, deep := true,
                   immediate := false } : WatcherState).deep then
              ({ ({ data := JSVal.obj 4 .fnil, deep := true,
                    immediate := false } : WatcherState) with
                  data := JSVal.obj 4 .fnil },
                some (JSVal.obj 4 .fnil, JSVal.obj 4 .fnil))
            else ({ data := JSVal.obj 4 .fnil, deep := true,
                    immediate := false }, none)))
      ∧ (refEq (JSVal.obj 4 .fnil) (JSVal.obj 4 .fnil) = false →
        Watcher.emit
          { data := JSVal.obj 4 .fnil, deep := true, immediate := false }
          (JSVal.obj 4 .fnil)
          = ({ ({ data := JSVal.obj 4 .fnil, deep := true,
                  immediate := false } : WatcherState) with
                data := JSVal.obj 4 .fnil },
              some (JSVal.obj 4 .fnil, JSVal.obj 4 .fnil)))) :=
  ⟨by decide,
    c3_emit_firing_rule
      { data := JSVal.obj 4 .fnil, deep := true, immediate := false }
      (JSVal.obj 4 .fnil)⟩

/-- C4 (code bug evaluation): in the current data-model revision the
setter of every nested accessor view is commented out, so the nested
write instance.profile.age = 30 changes nothing: the instance state is
untouched and a subsequent read of instance.profile.age still yields the
construction-time value 2 instead of 30.  (The cited draft revision,
src/unnamed/part_002 lines 664-695, performs
_actions.setValueByPath(self._data, path, val) and does behave as the
claim describes; the schema default object is never touched either way
because construction stores a deep clone.) -/
theorem c4_nested_write_dropped :
    nestedViewSetter stProfile ["profile", "age"] (.num 30) = stProfile
    ∧ propGet (reactiveGetter
        (nestedViewSetter stProfile ["profile", "age"] (.num 30))
        "profile" stProfile.next).1 "age" = .num 2
    ∧ ¬ (propGet (reactiveGetter
        (nestedViewSetter stProfile ["profile", "age"] (.num 30))
        "profile" stProfile.next).1 "age" = .num 30)
    ∧ jsGet structProfile "profile"
        = .obj 0 (.ofList [("age", .num 1), ("name", .str "x")]) :=
  ⟨rfl, by decide, by decide, by decide⟩

/-- C5: every read of a computed field invokes the bound getter, stores
its result, marks the cell computed and returns that result, regardless
of the cached state: the computed flag is set but never consulted, so a
second read returns the fresh getter result even when the flag is
already set and the cache holds a different value. -/
theorem c5_computed_recomputes_every_read (c c2 : ComputerState)
    (g g2 : JSVal) :
    Computer.value c g = (g, { value := g, computed := true })
    ∧ Computer.value c g = Computer.value c2 g
    ∧ (Computer.value ((Computer.value c g).2) g2).1 = g2 :=
  ⟨rfl, rfl, rfl⟩

theorem sharesAlias_eq_false_iff (a b : JSVal) :
    sharesAlias a b = false ↔ ∀ i ∈ containerIds a, i ∉ containerIds b := by
  simp [sharesAlias, List.any_eq_false]

theorem isUndefined_false_of_plain : (s : JSVal) →
    isPlainObject s = true → isUndefined s = false
  | .obj _ _, _ => rfl
  | .undefined, h => by simp [isPlainObject] at h
  | .nul, h => by simp [isPlainObject] at h
  | .bool _, h => by simp [isPlainObject] at h
  | .num _, h => by simp [isPlainObject] at h
  | .str _, h => by simp [isPlainObject] at h
  | .arr _ _, h => by simp [isPlainObject] at h

theorem eq_undef_of_isUndefined : (s : JSVal) →
    isUndefined s = true → s = .undefined
  | .undefined, _ => rfl
  | .nul, h => by simp [isUndefined] at h
  | .bool _, h => by simp [isUndefined] at h
  | .num _, h => by simp [isUndefined] at h
  | .str _, h => by simp [isUndefined] at h
  | .obj _ _, h => by simp [isUndefined] at h
  | .arr _ _, h => by simp [isUndefined] at h

/-- C6 counterexample: when the supplied value is the default object's
own internal array (same identity tag 1), getValue returns it as-is (it
is present and not a plain object), and the returned value aliases the
default's internal structure — the clause that the result never shares a
container with the default is false as universally stated. -/
theorem c6_supplied_aliases_default_cex :
    getValue (.obj 0 (.ofList [("x", .arr 1 (.econs (.num 1) .enil))]))
        (.arr 1 (.econs (.num 1) .enil)) 50
      = (.arr 1 (.econs (.num 1) .enil), 50)
    ∧ sharesAlias (.arr 1 (.econs (.num 1) .enil))
        (.obj 0 (.ofList [("x", .arr 1 (.econs (.num 1) .enil))]))
      = true :=
  ⟨by decide, by decide⟩

/-- C6 amended: getValue returns deepMerge(deepClone(default), supplied)
when the supplied value is a plain object, the supplied value as-is when
it is present but not a plain object, and deepClone(default) when it is
absent; and the result shares no container with the default provided the
supplied value itself shares none (supplied containers are incorporated
by reference, so a supplied value aliasing the default yields an aliased
result, as the counterexample shows). -/
theorem c6_getValue_branches_no_default_alias (d s : JSVal) (n : Nat)
    (hd : ∀ i ∈ containerIds d, i < n)
    (hs : sharesAlias s d = false) :
    (isPlainObject s = true →
      getValue d s n = (merge (cloneDeep d n).1 s, (cloneDeep d n).2))
    ∧ (isUndefined s = false → isPlainObject s = false →
      getValue d s n = (s, n))
    ∧ (isUndefined s = true → getValue d s n = cloneDeep d n)
    ∧ sharesAlias (getValue d s n).1 d = false := by
  have hclone : ∀ i ∈ containerIds (cloneDeep d n).1, i ∉ containerIds d := by
    intro i hi hid
    exact absurd (hd i hid) (by
      have := cloneDeep_ids_ge d n i hi
      omega)
  refine ⟨?_, ?_, ?_, ?_⟩
  · intro hp
    simp [getValue, isUndefined_false_of_plain s hp, hp]
  · intro hu hp
    simp [getValue, hu, hp]
  · intro hu
    rw [eq_undef_of_isUndefined s hu]
    simp [getValue, isUndefined]
  · by_cases hu : isUndefined s = true
    · rw [eq_undef_of_isUndefined s hu]
      simp only [getValue, isUndefined, Bool.not_true, Bool.false_eq_true,
        if_neg, ite_false]
      exact (sharesAlias_eq_false_iff _ _).2 hclone
    · have hu2 : isUndefined s = false := by simpa using hu
      by_cases hp : isPlainObject s = true
      · simp only [getValue, hu2, Bool.not_false, if_pos, hp]
        refine (sharesAlias_eq_false_iff _ _).2 ?_
        intro i hi
        rcases merge_ids s (cloneDeep d n).1 i hi with h2 | h2
        · exact hclone i h2
        · exact (sharesAlias_eq_false_iff s d).1 hs i h2
      · have hp2 : isPlainObject s = false := by simpa using hp
        simp only [getValue, hu2, Bool.not_false, if_pos, hp2,
          Bool.false_eq_true, if_neg, ite_false]
        exact hs

/-- Witness for C6 amended at a plain-object override that shares nothing
with the default. -/
theorem c6_getValue_branches_no_default_alias_witness :
    (∀ i ∈ containerIds (.obj 0 (.ofList [("x", .num 1)])), i < 3)
    ∧ sharesAlias (.obj 5 (.ofList [("x", .num 2)]))
        (.obj 0 (.ofList [("x", .num 1)])) = false
    ∧ ((isPlainObject (.obj 5 (.ofList [("x", .num 2)])) = true →
        getValue (.obj 0 (.ofList [("x", .num 1)]))
            (.obj 5 (.ofList [("x", .num 2)])) 3
          = (merge (cloneDeep (.obj 0 (.ofList [("x", .num 1)])) 3).1
              (.obj 5 (.ofList [("x", .num 2)])),
             (cloneDeep (.obj 0 (.ofList [("x", .num 1)])) 3).2))
      ∧ (isUndefined (.obj 5 (.ofList [("x", .num 2)])) = false →
        isPlainObject (.obj 5 (.ofList [("x", .num 2)])) = false →
        getValue (.obj 0 (.ofList [("x", .num 1)]))
            (.obj 5 (.ofList [("x", .num 2)])) 3
          = (.obj 5 (.ofList [("x", .num 2)]), 3))
      ∧ (isUndefined (.obj 5 (.ofList [("x", .num 2)])) = true →
        getValue (.obj 0 (.ofList [("x", .num 1)]))
            (.obj 5 (.ofList [("x", .num 2)])) 3
          = cloneDeep (.obj 0 (.ofList [("x", .num 1)])) 3)
      ∧ sharesAlias (getValue (.obj 0 (.ofList [("x", .num 1)]))
          (.obj 5 (.ofList [("x", .num 2)])) 3).1
          (.obj 0 (.ofList [("x", .num 1)])) = false) :=
  ⟨by decide, by decide,
    c6_getValue_branches_no_default_alias
      (.obj 0 (.ofList [("x", .num 1)]))
      (.obj 5 (.ofList [("x", .num 2)])) 3 (by decide) (by decide)⟩

theorem refEq_refl : (v : JSVal) → refEq v v = true
  | .undefined => rfl
  | .nul => rfl
  | .bool _ => by simp [refEq]
  | .num _ => by simp [refEq]
  | .str _ => by simp [refEq]
  | .obj _ _ => by simp [refEq]
  | .arr _ _ => by simp [refEq]

theorem dataGetter_fill_get (st : ModelState) (k : String) :
    ∀ ks : List String, k ∈ ks →
      jsGet (dataGetter.fill st ks) k = jsGet st.storers k := by
  intro ks
  induction ks with
  | nil => intro h; simp at h
  | cons k0 rest ih =>
    intro h
    rw [dataGetter.fill]
    by_cases h0 : k0 = k
    · subst h0; simp [jsGet]
    · rw [jsGet, if_neg h0]
      exact ih (by
        rcases List.mem_cons.1 h with h1 | h1
        · exact absurd h1.symm h0
        · exact h1)

/-- C10: the dollar-data getter allocates a fresh top-level object on
every call (its identity tag is the supplied fresh tag, so two calls with
different tags yield objects that are not reference-identical), while the
value held under each union-schema key is the stored value itself — the
very same value, reference-identical, with no clone — so container-valued
entries alias the internal storage and mutating them bypasses the
accessor, governance and watcher machinery. -/
theorem c10_dataGetter_fresh_top_aliased_entries
    (immutable structure_ : JSFields) (st : ModelState) (fresh : Nat) :
    (∃ fs, dataGetter immutable structure_ st fresh = .obj fresh fs)
    ∧ (∀ fresh2, fresh ≠ fresh2 →
      refEq (dataGetter immutable structure_ st fresh)
        (dataGetter immutable structure_ st fresh2) = false)
    ∧ ∀ k, hasKey (getUnionStructure structure_ immutable) k = true →
        propGet (dataGetter immutable structure_ st fresh) k
          = jsGet st.storers k
        ∧ refEq (propGet (dataGetter immutable structure_ st fresh) k)
            (jsGet st.storers k) = true := by
  refine ⟨⟨_, rfl⟩, ?_, ?_⟩
  · intro fresh2 hne
    simp [dataGetter, refEq, hne]
  · intro k hk
    have hmem : k ∈ (getUnionStructure structure_ immutable).keys :=
      (hasKey_iff_mem _ _).1 hk
    have : propGet (dataGetter immutable structure_ st fresh) k
        = jsGet st.storers k := by
      rw [dataGetter]
      exact dataGetter_fill_get st k _ hmem
    exact ⟨this, by rw [this]; exact refEq_refl _⟩

/-- Witness for C10 at the profile instance: the entry for profile in the
rebuilt top-level object is the stored container itself. -/
theorem c10_dataGetter_fresh_top_aliased_entries_witness :
    hasKey (getUnionStructure structProfile (.ofList [])) "profile" = true
    ∧ ((∃ fs, dataGetter (.ofList []) structProfile stProfile 42
          = .obj 42 fs)
      ∧ (∀ fresh2, 42 ≠ fresh2 →
        refEq (dataGetter (.ofList []) structProfile stProfile 42)
          (dataGetter (.ofList []) structProfile stProfile fresh2) = false)
      ∧ ∀ k, hasKey (getUnionStructure structProfile (.ofList [])) k
            = true →
          propGet (dataGetter (.ofList []) structProfile stProfile 42) k
            = jsGet stProfile.storers k
          ∧ refEq (propGet (dataGetter (.ofList [])
              structProfile stProfile 42) k)
              (jsGet stProfile.storers k) = true) :=
  ⟨by decide,
    c10_dataGetter_fresh_top_aliased_entries (.ofList []) structProfile
      stProfile 42⟩
